import Mathlib

/-!
Verification of the freehand-sketch digit-recognition pipeline
(`ActivityD`): grayscale conversion, bounding-box location, reflect-padded
3x3 convolution, abs-normalisation, 2x2 max-pooling, prototype-MSE
classification with adaptive-temperature softmax, and the
requestAnimationFrame coalescing controller.

Grids are row-major lists of rows of field elements, mirroring the
`NumGrid = number[][]` type of the source.  Numeric code is embedded over an
arbitrary linearly ordered field so that the pure image utilities stay
executable (instantiated at `ℚ` for concrete evaluations); the classifier
stage, which uses `sqrt` and `exp`, is instantiated at `ℝ`.
-/

namespace ActivityD

/-- `NumGrid`: row-major list of rows (`number[][]` in the source). -/
abbrev Grid (α : Type) := List (List α)

/-- Cell access `g[y][x]`, with out-of-range reads defaulting to `0`
(the source only ever indexes in bounds). -/
def cell {α : Type} [Zero α] (g : Grid α) (y x : ℕ) : α :=
  (g.getD y []).getD x 0

/-- Grid height `g.length`. -/
def gH {α : Type} (g : Grid α) : ℕ := g.length

/-- Grid width `g[0].length` (`0` for an empty grid). -/
def gW {α : Type} (g : Grid α) : ℕ := (g.headD []).length

/-- `zeros(h, w)`: all-zero grid. -/
def zeros (α : Type) [Zero α] (h w : ℕ) : Grid α :=
  List.replicate h (List.replicate w 0)

/-- A grid built from a cell formula, used to express the doubly indexed
`for` loops of the source (`out[y][x] = f y x`). -/
def mkGrid {α : Type} (h w : ℕ) (f : ℕ → ℕ → α) : Grid α :=
  (List.range h).map fun y => (List.range w).map fun x => f y x

/-- A uniform constant grid (every cell equal to `c`). -/
def constGrid {α : Type} (h w : ℕ) (c : α) : Grid α :=
  List.replicate h (List.replicate w c)

/-- A bitmap pixel: the R, G, B byte channels of `ImageData`
(the alpha channel is never read by the pipeline). -/
abbrev Pixel := ℕ × ℕ × ℕ

/-- `ImageData`: row-major pixel matrix. -/
abbrev Bitmap := List (List Pixel)

/-- `fromImageDataToGray`: rec. 601 luma scaled to `[0,1]`, optionally
inverted so that ink (dark) maps near `1`. -/
def fromImageDataToGray {α : Type} [LinearOrderedField α]
    (img : Bitmap) (invert : Bool) : Grid α :=
  img.map fun row => row.map fun p =>
    let v : α := ((299 : α) / 1000 * p.1 + (587 : α) / 1000 * p.2.1
      + (114 : α) / 1000 * p.2.2) / 255
    if invert then 1 - v else v

/-- `mse(a, b)`: mean squared error over the dimensions of `a`. -/
def mse {α : Type} [LinearOrderedField α] (a b : Grid α) : α :=
  (((List.range (gH a)).map fun y =>
      ((List.range (gW a)).map fun x => (cell a y x - cell b y x) ^ 2).sum).sum)
  / ((gH a : α) * (gW a : α))

/-- One pass of the `while` loop of `reflect`, with explicit fuel.  For
`1 ≤ n` the loop provably terminates within `i.natAbs + 1` steps (each
out-of-range step strictly decreases `|i|`), so the fuel value used by
`reflect` never runs out; the `0`-fuel fallback returns `i` unchanged. -/
def reflectAux : ℕ → ℤ → ℕ → ℤ
  | 0, i, _ => i
  | fuel + 1, i, n =>
      if i < 0 then reflectAux fuel (-i - 1) n
      else if (n : ℤ) ≤ i then reflectAux fuel (2 * n - i - 1) n
      else i

/-- `reflect(i, n)`: reflect-padding index helper.  `n = 1` short-circuits
to `0` exactly as in the source; otherwise the `while` loop runs
(embedded with sufficient fuel). -/
def reflect (i : ℤ) (n : ℕ) : ℤ :=
  if n = 1 then 0 else reflectAux (i.natAbs + 1) i n

/-- The kernel offsets `ky, kx ∈ {-1, 0, 1}` of the 3x3 convolution. -/
def offs : List ℤ := [-1, 0, 1]

/-- `convolve3(img, k)`: 3x3 convolution with reflect padding. -/
def convolve3 {α : Type} [LinearOrderedField α] (img : Grid α) (k : Grid α) :
    Grid α :=
  let h := gH img
  let w := gW img
  mkGrid h w fun y x =>
    (offs.map fun ky =>
      (offs.map fun kx =>
        cell img (reflect ((y : ℤ) + ky) h).toNat (reflect ((x : ℤ) + kx) w).toNat
          * cell k (ky + 1).toNat (kx + 1).toNat).sum).sum

/-- The sum of the nine kernel entries read by `convolve3`. -/
def kernelSum {α : Type} [LinearOrderedField α] (k : Grid α) : α :=
  ((List.range 3).map fun a => ((List.range 3).map fun b => cell k a b).sum).sum

/-- The running maximum `m` of `normalizeAbs`: fold of `max` over the
absolute values of all cells, starting from `0`. -/
def maxAbs {α : Type} [LinearOrderedField α] (g : Grid α) : α :=
  (((List.range (gH g)).flatMap fun y =>
      (List.range (gW g)).map fun x => |cell g y x|)).foldl max 0

/-- `normalizeAbs(g)`: all-zero when the maximum absolute value is below
`1e-8`, otherwise each cell is its absolute value divided by that maximum. -/
def normalizeAbs {α : Type} [LinearOrderedField α] (g : Grid α) : Grid α :=
  let h := gH g
  let w := gW g
  let m := maxAbs g
  if m < 1 / 100000000 then zeros α h w
  else mkGrid h w fun y x => |cell g y x| / m

/-- `maxPool2(g)`: non-overlapping 2x2 max reduction (floor-halved dims). -/
def maxPool2 {α : Type} [LinearOrderedField α] (g : Grid α) : Grid α :=
  mkGrid (gH g / 2) (gW g / 2) fun y x =>
    max (max (max (cell g (2 * y) (2 * x)) (cell g (2 * y) (2 * x + 1)))
      (cell g (2 * y + 1) (2 * x))) (cell g (2 * y + 1) (2 * x + 1))

namespace KERNELS

/-- `KERNELS.SobelX`. -/
def SobelX {α : Type} [LinearOrderedField α] : Grid α :=
  [[-1, 0, 1], [-2, 0, 2], [-1, 0, 1]]

/-- `KERNELS.SobelY`. -/
def SobelY {α : Type} [LinearOrderedField α] : Grid α :=
  [[-1, -2, -1], [0, 0, 0], [1, 2, 1]]

/-- `KERNELS.Laplace`. -/
def Laplace {α : Type} [LinearOrderedField α] : Grid α :=
  [[0, 1, 0], [1, -4, 1], [0, 1, 0]]

/-- `KERNELS.Blur3`. -/
def Blur3 {α : Type} [LinearOrderedField α] : Grid α :=
  [[1 / 16, 2 / 16, 1 / 16], [2 / 16, 4 / 16, 2 / 16], [1 / 16, 2 / 16, 1 / 16]]

end KERNELS

/-! ### Basic list and grid lemmas -/

theorem getD_range_map {α : Type} (h : ℕ) (f : ℕ → α) (d : α) {y : ℕ}
    (hy : y < h) : ((List.range h).map f).getD y d = f y := by
  rw [List.getD_eq_getElem _ _ (by simpa using hy)]
  simp

theorem map_getD_range {α : Type} (l : List α) (d : α) :
    (List.range l.length).map (fun i => l.getD i d) = l := by
  apply List.ext_getElem (by simp)
  intro i h1 h2
  simp only [List.getElem_map, List.getElem_range]
  exact List.getD_eq_getElem l d h2

theorem foldl_add_eq_sum {α : Type} [AddCommMonoid α] (l : List α) (z : α) :
    l.foldl (fun a b => a + b) z = z + l.sum := by
  induction l generalizing z with
  | nil => simp
  | cons a t ih => simp [ih, add_assoc]

theorem le_foldl_max {α : Type} [LinearOrder α] (l : List α) (a : α) :
    a ≤ l.foldl max a := by
  induction l generalizing a with
  | nil => simp
  | cons b t ih => exact le_trans (le_max_left a b) (ih (max a b))

theorem mem_le_foldl_max {α : Type} [LinearOrder α] {l : List α} {x : α}
    (hx : x ∈ l) (a : α) : x ≤ l.foldl max a := by
  induction l generalizing a with
  | nil => simp at hx
  | cons b t ih =>
    rcases List.mem_cons.mp hx with rfl | hx
    · exact le_trans (le_max_right a x) (le_foldl_max t (max a x))
    · exact ih hx (max a b)

theorem foldl_max_replicate {α : Type} [LinearOrder α] (n : ℕ) (a : α) :
    (List.replicate n a).foldl max a = a := by
  induction n with
  | zero => simp
  | succ m ih => simp [List.replicate_succ, ih]

theorem sum_map_div {α : Type} [DivisionRing α] (l : List α) (z : α) :
    (l.map fun x => x / z).sum = l.sum / z := by
  simp only [div_eq_mul_inv]
  simpa using List.sum_map_mul_right l id z⁻¹

theorem row_mkGrid {α : Type} (h w : ℕ) (f : ℕ → ℕ → α) {y : ℕ}
    (hy : y < h) :
    (mkGrid h w f).getD y [] = (List.range w).map fun x => f y x := by
  unfold mkGrid
  exact getD_range_map h _ [] hy

theorem cell_mkGrid {α : Type} [Zero α] (h w : ℕ) (f : ℕ → ℕ → α) {y x : ℕ}
    (hy : y < h) (hx : x < w) : cell (mkGrid h w f) y x = f y x := by
  unfold cell
  rw [row_mkGrid h w f hy, getD_range_map w _ 0 hx]

theorem gH_mkGrid {α : Type} (h w : ℕ) (f : ℕ → ℕ → α) :
    gH (mkGrid h w f) = h := by
  simp [gH, mkGrid]

theorem cell_constGrid {α : Type} [Zero α] (h w : ℕ) (c : α) {y x : ℕ}
    (hy : y < h) (hx : x < w) : cell (constGrid h w c) y x = c := by
  unfold cell constGrid
  rw [List.getD_eq_getElem (List.replicate h (List.replicate w c)) []
      (by simpa using hy), List.getElem_replicate,
    List.getD_eq_getElem (List.replicate w c) 0 (by simpa using hx),
    List.getElem_replicate]

theorem gH_constGrid {α : Type} (h w : ℕ) (c : α) : gH (constGrid h w c) = h := by
  simp [gH, constGrid]

theorem gW_constGrid {α : Type} (h w : ℕ) (c : α) (hh : 1 ≤ h) :
    gW (constGrid h w c) = w := by
  cases h with
  | zero => omega
  | succ m => simp [gW, constGrid, List.replicate_succ]

/-! ### Reflect-padding: termination and bounds -/

theorem reflectAux_bounds : ∀ (fuel : ℕ) (i : ℤ) (n : ℕ), 1 ≤ n →
    i.natAbs < fuel → 0 ≤ reflectAux fuel i n ∧ reflectAux fuel i n < n := by
  intro fuel
  induction fuel with
  | zero => intro i n _ hfu; omega
  | succ m ih =>
    intro i n hn hfu
    rw [reflectAux]
    by_cases h1 : i < 0
    · rw [if_pos h1]
      exact ih (-i - 1) n hn (by omega)
    · rw [if_neg h1]
      by_cases h2 : (n : ℤ) ≤ i
      · rw [if_pos h2]
        exact ih (2 * n - i - 1) n hn (by omega)
      · rw [if_neg h2]
        omega

theorem reflectAux_fuel_stable : ∀ (fuel extra : ℕ) (i : ℤ) (n : ℕ), 1 ≤ n →
    i.natAbs < fuel → reflectAux (fuel + extra) i n = reflectAux fuel i n := by
  intro fuel
  induction fuel with
  | zero => intro extra i n _ hfu; omega
  | succ m ih =>
    intro extra i n hn hfu
    have hstep : m + 1 + extra = (m + extra) + 1 := by omega
    rw [hstep, reflectAux, reflectAux]
    by_cases h1 : i < 0
    · rw [if_pos h1, if_pos h1]
      exact ih extra (-i - 1) n hn (by omega)
    · rw [if_neg h1, if_neg h1]
      by_cases h2 : (n : ℤ) ≤ i
      · rw [if_pos h2, if_pos h2]
        exact ih extra (2 * n - i - 1) n hn (by omega)
      · rw [if_neg h2, if_neg h2]

theorem reflect_bounds (i : ℤ) (n : ℕ) (hn : 1 ≤ n) :
    0 ≤ reflect i n ∧ reflect i n < n := by
  unfold reflect
  by_cases h1 : n = 1
  · rw [if_pos h1]; omega
  · rw [if_neg h1]
    exact reflectAux_bounds (i.natAbs + 1) i n hn (by omega)

theorem reflect_toNat_lt (i : ℤ) (n : ℕ) (hn : 1 ≤ n) :
    (reflect i n).toNat < n := by
  have := reflect_bounds i n hn
  omega

/-! ### Cell-level facts about the image utilities -/

theorem cell_out_row {α : Type} [Zero α] (g : Grid α) {y : ℕ}
    (hy : g.length ≤ y) (x : ℕ) : cell g y x = 0 := by
  unfold cell
  rw [List.getD_eq_default g [] hy]
  simp

theorem cell_zeros {α : Type} [Zero α] (h w y x : ℕ) :
    cell (zeros α h w) y x = 0 := by
  rcases lt_or_ge y h with hy | hy
  · rcases lt_or_ge x w with hx | hx
    · exact cell_constGrid h w 0 hy hx
    · unfold cell zeros
      rw [List.getD_eq_getElem (List.replicate h (List.replicate w (0 : α))) []
          (by simpa using hy), List.getElem_replicate]
      exact List.getD_eq_default _ _ (by simpa using hx)
  · exact cell_out_row _ (by simpa [zeros] using hy) x

theorem cell_mkGrid_out {α : Type} [Zero α] (h w : ℕ) (f : ℕ → ℕ → α)
    {y x : ℕ} (hout : h ≤ y ∨ w ≤ x) : cell (mkGrid h w f) y x = 0 := by
  rcases hout with hy | hx
  · exact cell_out_row _ (by simpa [mkGrid] using hy) x
  · rcases lt_or_ge y h with hy | hy
    · unfold cell
      rw [row_mkGrid h w f hy]
      exact List.getD_eq_default _ _ (by simpa using hx)
    · exact cell_out_row _ (by simpa [mkGrid] using hy) x

theorem mse_nonneg {α : Type} [LinearOrderedField α] (a b : Grid α) :
    0 ≤ mse a b := by
  unfold mse
  apply div_nonneg
  · apply List.sum_nonneg
    intro s hs
    rcases List.mem_map.mp hs with ⟨y, _, rfl⟩
    apply List.sum_nonneg
    intro t ht
    rcases List.mem_map.mp ht with ⟨x, _, rfl⟩
    exact sq_nonneg _
  · positivity

theorem mse_self {α : Type} [LinearOrderedField α] (a : Grid α) :
    mse a a = 0 := by
  simp [mse]

theorem maxAbs_nonneg {α : Type} [LinearOrderedField α] (g : Grid α) :
    0 ≤ maxAbs g :=
  le_foldl_max _ 0

theorem abs_cell_le_maxAbs {α : Type} [LinearOrderedField α] (g : Grid α)
    {y x : ℕ} (hy : y < gH g) (hx : x < gW g) : |cell g y x| ≤ maxAbs g := by
  apply mem_le_foldl_max
  apply List.mem_flatMap.mpr
  exact ⟨y, List.mem_range.mpr hy, List.mem_map.mpr ⟨x, List.mem_range.mpr hx, rfl⟩⟩

theorem cell_normalizeAbs_bounds {α : Type} [LinearOrderedField α]
    (g : Grid α) (y x : ℕ) :
    0 ≤ cell (normalizeAbs g) y x ∧ cell (normalizeAbs g) y x ≤ 1 := by
  unfold normalizeAbs
  by_cases hm : maxAbs g < 1 / 100000000
  · rw [if_pos hm, cell_zeros]
    norm_num
  · rw [if_neg hm]
    have hmpos : 0 < maxAbs g := by
      have : (0 : α) < 1 / 100000000 := by norm_num
      linarith [not_lt.mp hm]
    by_cases hin : y < gH g ∧ x < gW g
    · rw [cell_mkGrid _ _ _ hin.1 hin.2]
      constructor
      · positivity
      · rw [div_le_one hmpos]
        exact abs_cell_le_maxAbs g hin.1 hin.2
    · rw [cell_mkGrid_out _ _ _ (by omega)]
      norm_num

theorem cell_maxPool2_bounds {α : Type} [LinearOrderedField α] (g : Grid α)
    (hg : ∀ y x, 0 ≤ cell g y x ∧ cell g y x ≤ 1) (y x : ℕ) :
    0 ≤ cell (maxPool2 g) y x ∧ cell (maxPool2 g) y x ≤ 1 := by
  unfold maxPool2
  by_cases hin : y < gH g / 2 ∧ x < gW g / 2
  · rw [cell_mkGrid _ _ _ hin.1 hin.2]
    constructor
    · exact le_trans (hg (2 * y) (2 * x)).1
        (le_trans (le_max_left _ _) (le_trans (le_max_left _ _) (le_max_left _ _)))
    · exact max_le (max_le (max_le (hg _ _).2 (hg _ _).2) (hg _ _).2) (hg _ _).2
  · rw [cell_mkGrid_out _ _ _ (by omega)]
    norm_num

theorem cell_gray_bounds {α : Type} [LinearOrderedField α] (img : Bitmap)
    (hb : ∀ row ∈ img, ∀ p ∈ row, p.1 ≤ 255 ∧ p.2.1 ≤ 255 ∧ p.2.2 ≤ 255)
    (y x : ℕ) :
    0 ≤ cell (fromImageDataToGray img true : Grid α) y x ∧
      cell (fromImageDataToGray img true : Grid α) y x ≤ 1 := by
  have hlen : (fromImageDataToGray img true : Grid α).length = img.length := by
    simp [fromImageDataToGray]
  rcases lt_or_ge y img.length with hy | hy
  · rcases lt_or_ge x (img[y].length) with hx | hx
    · have hcell : cell (fromImageDataToGray img true : Grid α) y x =
          1 - ((299 : α) / 1000 * (img[y][x]).1 + (587 : α) / 1000 * (img[y][x]).2.1
            + (114 : α) / 1000 * (img[y][x]).2.2) / 255 := by
        unfold cell fromImageDataToGray
        rw [List.getD_eq_getElem
            (img.map fun row => row.map fun p =>
              let v : α := ((299 : α) / 1000 * p.1 + (587 : α) / 1000 * p.2.1
                + (114 : α) / 1000 * p.2.2) / 255
              if true then 1 - v else v) [] (by simpa using hy),
          List.getElem_map]
        rw [List.getD_eq_getElem (img[y].map fun p =>
            let v : α := ((299 : α) / 1000 * p.1 + (587 : α) / 1000 * p.2.1
              + (114 : α) / 1000 * p.2.2) / 255
            if true then 1 - v else v) 0 (by simpa using hx),
          List.getElem_map]
        simp
      have hp := hb img[y] (List.getElem_mem hy) (img[y][x]) (List.getElem_mem hx)
      have c1 : ((img[y][x]).1 : α) ≤ 255 := by exact_mod_cast hp.1
      have c2 : ((img[y][x]).2.1 : α) ≤ 255 := by exact_mod_cast hp.2.1
      have c3 : ((img[y][x]).2.2 : α) ≤ 255 := by exact_mod_cast hp.2.2
      have d1 : (0 : α) ≤ ((img[y][x]).1 : α) := by positivity
      have d2 : (0 : α) ≤ ((img[y][x]).2.1 : α) := by positivity
      have d3 : (0 : α) ≤ ((img[y][x]).2.2 : α) := by positivity
      rw [hcell]
      constructor
      · rw [sub_nonneg, div_le_one (by norm_num : (0 : α) < 255)]
        linarith
      · have : (0 : α) ≤ ((299 : α) / 1000 * (img[y][x]).1
            + (587 : α) / 1000 * (img[y][x]).2.1
            + (114 : α) / 1000 * (img[y][x]).2.2) / 255 := by positivity
        linarith
    · have hcell : cell (fromImageDataToGray img true : Grid α) y x = 0 := by
        unfold cell fromImageDataToGray
        rw [List.getD_eq_getElem
            (img.map fun row => row.map fun p =>
              let v : α := ((299 : α) / 1000 * p.1 + (587 : α) / 1000 * p.2.1
                + (114 : α) / 1000 * p.2.2) / 255
              if true then 1 - v else v) [] (by simpa using hy),
          List.getElem_map]
        exact List.getD_eq_default _ _ (by simpa using hx)
      rw [hcell]
      norm_num
  · have hcell : cell (fromImageDataToGray img true : Grid α) y x = 0 :=
      cell_out_row _ (by omega) x
    rw [hcell]
    norm_num

/-! ### Convolution of a uniform constant grid -/

theorem convolve3_constGrid {α : Type} [LinearOrderedField α] (h w : ℕ)
    (c : α) (k : Grid α) (hh : 1 ≤ h) (hw : 1 ≤ w) (hk : kernelSum k = 1) :
    convolve3 (constGrid h w c) k = constGrid h w c := by
  unfold convolve3
  rw [gH_constGrid, gW_constGrid h w c hh]
  have hc : ∀ (i j : ℤ),
      cell (constGrid h w c) (reflect i h).toNat (reflect j w).toNat = c :=
    fun i j => cell_constGrid h w c (reflect_toNat_lt i h hh) (reflect_toNat_lt j w hw)
  have hk' : cell k 0 0 + cell k 0 1 + cell k 0 2 + cell k 1 0 + cell k 1 1
      + cell k 1 2 + cell k 2 0 + cell k 2 1 + cell k 2 2 = 1 := by
    have := hk
    unfold kernelSum at this
    simp only [List.range_succ, List.range_zero, List.nil_append, List.cons_append,
      List.map_cons, List.map_nil, List.sum_cons, List.sum_nil] at this
    linarith
  have hbody : ∀ y x : ℕ,
      (offs.map fun ky => (offs.map fun kx =>
        cell (constGrid h w c) (reflect ((y : ℤ) + ky) h).toNat
            (reflect ((x : ℤ) + kx) w).toNat
          * cell k (ky + 1).toNat (kx + 1).toNat).sum).sum = c := by
    intro y x
    simp only [offs, List.map_cons, List.map_nil, List.sum_cons, List.sum_nil, hc]
    norm_num [show ((2 : ℤ)).toNat = 2 from rfl, show ((1 : ℤ)).toNat = 1 from rfl,
      show ((0 : ℤ)).toNat = 0 from rfl]
    linear_combination c * hk'
  simp only [hbody]
  unfold mkGrid constGrid
  simp [List.map_const']

/-! ### Preprocessing: bounding-box scan and the 28x28 normaliser -/

/-- The bounding-box accumulator of `preprocessTo28x28`:
`(minx, miny, maxx, maxy)`, scanned over all `(y, x)` in row-major order
starting from `(w, h, -1, -1)`; a cell counts as ink when its value
exceeds the threshold `0.08`. -/
def bboxFold {α : Type} [LinearOrderedField α] (g : Grid α) (h w : ℕ) :
    ℤ × ℤ × ℤ × ℤ :=
  ((List.range h).flatMap fun y => (List.range w).map fun x => (y, x)).foldl
    (fun acc p =>
      if (8 : α) / 100 < cell g p.1 p.2 then
        (min acc.1 (p.2 : ℤ), min acc.2.1 (p.1 : ℤ),
          max acc.2.2.1 (p.2 : ℤ), max acc.2.2.2 (p.1 : ℤ))
      else acc)
    ((w : ℤ), (h : ℤ), -1, -1)

/-- `preprocessTo28x28`: grayscale the source bitmap, find the ink bounding
box, and either return the all-zero canonical grid with no box (empty
canvas) or crop/scale/centre via the host canvas.  The crop-scale-centre
step (`drawImage` on the scratch canvases) is host-platform code, passed in
here as the `resample` argument; the empty-canvas branch is fully
determined before it is ever consulted. -/
def preprocessTo28x28 {α : Type} [LinearOrderedField α]
    (resample : Grid α → ℤ × ℤ × ℤ × ℤ → Grid α) (img : Bitmap) :
    Grid α × Option (ℤ × ℤ × ℤ × ℤ) :=
  let w := (img.headD []).length
  let h := img.length
  let gray : Grid α := fromImageDataToGray img true
  let r := bboxFold gray h w
  if r.2.2.1 < 0 then (zeros α 28 28, none)
  else
    let bw := r.2.2.1 - r.1 + 1
    let bh := r.2.2.2 - r.2.1 + 1
    (resample gray (r.1, r.2.1, bw, bh), some (r.1, r.2.1, bw, bh))

theorem foldl_id_of_fixed {α β : Type} (f : α → β → α) (l : List β) (a : α)
    (hf : ∀ x ∈ l, ∀ b, f b x = b) : l.foldl f a = a := by
  induction l generalizing a with
  | nil => rfl
  | cons x t ih =>
    rw [List.foldl_cons, hf x (List.mem_cons_self x t) a]
    exact ih a (fun z hz b => hf z (List.mem_cons_of_mem x hz) b)

theorem bboxFold_of_no_ink {α : Type} [LinearOrderedField α] (g : Grid α)
    (h w : ℕ) (hg : ∀ y x, cell g y x ≤ (8 : α) / 100) :
    bboxFold g h w = ((w : ℤ), (h : ℤ), -1, -1) := by
  unfold bboxFold
  apply foldl_id_of_fixed
  intro p _ b
  rw [if_neg (not_lt.mpr (hg p.1 p.2))]

/-! ### Classifier: prototype distances, adaptive softmax, ranking -/

/-- `Pred`: one per-class prediction `{digit, prob, dist}`. -/
structure Pred where
  digit : ℕ
  prob : ℝ
  dist : ℝ

/-- The prototype bank: for each class label `0..9`, the list of grids of
the stored `Proto`s of that class (`protos.get(d)`, built once from
host-rendered font glyphs). -/
abbrev Bank := ℕ → List (Grid ℝ)

/-- `dists[d]`: running minimum (strict-update fold) over the prototypes of
class `d`, starting from the sentinel `1e9`. -/
noncomputable def distOf (g : Grid ℝ) (bank : Bank) (d : ℕ) : ℝ :=
  (bank d).foldl (fun acc p => if mse g p < acc then mse g p else acc) 1000000000

/-- The 10-entry distance vector `dists`. -/
noncomputable def distsOf (g : Grid ℝ) (bank : Bank) : List ℝ :=
  (List.range 10).map (distOf g bank)

/-- The `(bestDist, bestGrid)` running arg-min over all prototypes of all
classes, in iteration order; `none` plays the role of the initial
`(Infinity, null)` pair. -/
noncomputable def bestOf (g : Grid ℝ) (bank : Bank) : Option (ℝ × Grid ℝ) :=
  ((List.range 10).flatMap bank).foldl
    (fun acc p =>
      match acc with
      | none => some (mse g p, p)
      | some bd => if mse g p < bd.1 then some (mse g p, p) else acc)
    none

/-- `Math.max(...l)` for the nonempty vectors used by the classifier. -/
def maxList (l : List ℝ) : ℝ :=
  match l with
  | [] => 0
  | a :: t => t.foldl max a

/-- `Math.min(...l)` for the nonempty vectors used by the classifier. -/
def minList (l : List ℝ) : ℝ :=
  match l with
  | [] => 0
  | a :: t => t.foldl min a

/-- `spread = Math.max(1e-9, max(dists) - min(dists))`. -/
noncomputable def spreadOf (dists : List ℝ) : ℝ :=
  max (1 / 1000000000) (maxList dists - minList dists)

/-- `alpha = Math.min(120, Math.max(30, 60 / Math.sqrt(spread + 1e-9)))`. -/
noncomputable def alphaOf (dists : List ℝ) : ℝ :=
  min 120 (max 30 (60 / Real.sqrt (spreadOf dists + 1 / 1000000000)))

/-- `logits = dists.map(dd => -alpha * dd)`. -/
noncomputable def logitsOf (dists : List ℝ) : List ℝ :=
  dists.map fun dd => -alphaOf dists * dd

/-- `maxL = Math.max(...logits)`. -/
noncomputable def maxLOf (dists : List ℝ) : ℝ :=
  maxList (logitsOf dists)

/-- `exps = logits.map(l => Math.exp(l - maxL))`. -/
noncomputable def expsOf (dists : List ℝ) : List ℝ :=
  (logitsOf dists).map fun l => Real.exp (l - maxLOf dists)

/-- `Z = exps.reduce((a,b) => a+b, 0)`. -/
noncomputable def zOf (dists : List ℝ) : ℝ :=
  (expsOf dists).foldl (fun a b => a + b) 0

/-- `probs = exps.map(e => e/Z)`. -/
noncomputable def probsOf (dists : List ℝ) : List ℝ :=
  (expsOf dists).map fun e => e / zOf dists

/-- The unsorted prediction array
`probs.map((p, i) => ({digit: i, prob: p, dist: dists[i]}))`. -/
noncomputable def predArrOf (g : Grid ℝ) (bank : Bank) : List Pred :=
  (List.range 10).map fun i =>
    ⟨i, (probsOf (distsOf g bank)).getD i 0, (distsOf g bank).getD i 0⟩

/-- The descending-probability comparator of `predArr.sort`. -/
def rge (a b : Pred) : Prop := b.prob ≤ a.prob

noncomputable instance : DecidableRel rge :=
  fun a b => inferInstanceAs (Decidable (b.prob ≤ a.prob))

instance : IsTotal Pred rge := ⟨fun a b => le_total b.prob a.prob⟩

instance : IsTrans Pred rge := ⟨fun _ _ _ hab hbc => le_trans hbc hab⟩

/-- The sorted prediction list produced by `processNow`
(`predArr.sort((a,b) => b.prob - a.prob)`). -/
noncomputable def predsOf (g : Grid ℝ) (bank : Bank) : List Pred :=
  List.insertionSort rge (predArrOf g bank)

/-! ### The requestAnimationFrame coalescing controller -/

/-- Controller state: `inp` is the current input (the drawing surface read
by `processNow`), `rafId` records whether `rafId.current` is non-null,
`scheduled` counts the callbacks currently registered with
`requestAnimationFrame` (what the coalescing contract bounds), and `out`
is the last published result triple. -/
structure CtrlState (I O : Type) where
  inp : I
  rafId : Bool
  scheduled : ℕ
  out : Option O

/-- Controller events: an input-change trigger (pointer event, which
updates the drawing and calls `requestProcess`) or the animation-frame
callback firing. -/
inductive CtrlEvent (I : Type) where
  | trigger (i : I)
  | frame

/-- One controller step.  `trigger`: record the new input; `requestProcess`
returns immediately when `rafId.current` is set, otherwise registers one
callback.  `frame`: if a callback was registered it clears `rafId.current`
and runs `processNow` on the current input. -/
def cstep {I O : Type} (process : I → O) (s : CtrlState I O) :
    CtrlEvent I → CtrlState I O
  | CtrlEvent.trigger i =>
      if s.rafId then { s with inp := i }
      else { inp := i, rafId := true, scheduled := s.scheduled + 1, out := s.out }
  | CtrlEvent.frame =>
      if s.rafId then
        { inp := s.inp, rafId := false, scheduled := s.scheduled - 1,
          out := some (process s.inp) }
      else s

/-- Run the controller over a sequence of events. -/
def crun {I O : Type} (process : I → O) (s : CtrlState I O)
    (es : List (CtrlEvent I)) : CtrlState I O :=
  es.foldl (cstep process) s

/-- Initial controller state: nothing drawn yet, `rafId.current = null`,
no callback registered. -/
def cinit {I O : Type} (i0 : I) : CtrlState I O :=
  ⟨i0, false, 0, none⟩

/-! ### Classifier lemmas -/

theorem getD_map_lt {α β : Type} (f : α → β) (l : List α) {i : ℕ}
    (hi : i < l.length) (d : β) (d0 : α) :
    (l.map f).getD i d = f (l.getD i d0) := by
  rw [List.getD_eq_getElem (l.map f) d (by simpa using hi), List.getElem_map,
    List.getD_eq_getElem l d0 hi]

theorem probsOf_eq_map (dists : List ℝ) :
    probsOf dists = dists.map fun dd =>
      Real.exp (-alphaOf dists * dd - maxLOf dists) / zOf dists := by
  unfold probsOf expsOf logitsOf
  rw [List.map_map, List.map_map]
  rfl

theorem length_probsOf (dists : List ℝ) :
    (probsOf dists).length = dists.length := by
  rw [probsOf_eq_map]
  simp

theorem length_distsOf (g : Grid ℝ) (bank : Bank) :
    (distsOf g bank).length = 10 := by
  simp [distsOf]

theorem distsOf_getD (g : Grid ℝ) (bank : Bank) {i : ℕ} (hi : i < 10) :
    (distsOf g bank).getD i 0 = distOf g bank i := by
  unfold distsOf
  exact getD_range_map 10 _ 0 hi

theorem probsOf_getD (dists : List ℝ) {i : ℕ} (hi : i < dists.length) :
    (probsOf dists).getD i 0 =
      Real.exp (-alphaOf dists * dists.getD i 0 - maxLOf dists) / zOf dists := by
  rw [probsOf_eq_map]
  exact getD_map_lt _ dists hi 0 0

theorem zOf_eq_sum (dists : List ℝ) : zOf dists = (expsOf dists).sum := by
  unfold zOf
  rw [foldl_add_eq_sum]
  ring

theorem zOf_pos (dists : List ℝ) (hne : dists ≠ []) : 0 < zOf dists := by
  rw [zOf_eq_sum]
  rcases List.exists_cons_of_ne_nil hne with ⟨a, t, rfl⟩
  unfold expsOf logitsOf
  simp only [List.map_cons, List.sum_cons]
  have h1 : 0 < Real.exp (-alphaOf (a :: t) * a - maxLOf (a :: t)) := Real.exp_pos _
  have h2 : 0 ≤ ((t.map fun dd => -alphaOf (a :: t) * dd).map fun l =>
      Real.exp (l - maxLOf (a :: t))).sum := by
    apply List.sum_nonneg
    intro x hx
    rcases List.mem_map.mp hx with ⟨u, _, rfl⟩
    exact le_of_lt (Real.exp_pos _)
  linarith

theorem mem_probsOf_pos (dists : List ℝ) (hne : dists ≠ []) :
    ∀ p ∈ probsOf dists, 0 < p := by
  intro p hp
  rw [probsOf_eq_map] at hp
  rcases List.mem_map.mp hp with ⟨dd, _, rfl⟩
  exact div_pos (Real.exp_pos _) (zOf_pos dists hne)

theorem mem_probsOf_le_one (dists : List ℝ) (hne : dists ≠ []) :
    ∀ p ∈ probsOf dists, p ≤ 1 := by
  intro p hp
  unfold probsOf at hp
  rcases List.mem_map.mp hp with ⟨e, he, rfl⟩
  rw [div_le_one (zOf_pos dists hne), zOf_eq_sum]
  apply List.single_le_sum _ _ he
  intro x hx
  unfold expsOf at hx
  rcases List.mem_map.mp hx with ⟨u, _, rfl⟩
  exact le_of_lt (Real.exp_pos _)

theorem probsOf_sum (dists : List ℝ) (hne : dists ≠ []) :
    (probsOf dists).sum = 1 := by
  unfold probsOf
  rw [sum_map_div, ← zOf_eq_sum]
  exact div_self (ne_of_gt (zOf_pos dists hne))

theorem alphaOf_ge_30 (dists : List ℝ) : 30 ≤ alphaOf dists :=
  le_min (by norm_num) (le_max_left _ _)

theorem alphaOf_le_120 (dists : List ℝ) : alphaOf dists ≤ 120 :=
  min_le_left _ _

theorem alphaOf_pos (dists : List ℝ) : 0 < alphaOf dists :=
  lt_of_lt_of_le (by norm_num) (alphaOf_ge_30 dists)

/-! ### The running-minimum folds of the classification loop -/

theorem distFold_le (g : Grid ℝ) (l : List (Grid ℝ)) :
    ∀ acc : ℝ,
      l.foldl (fun acc p => if mse g p < acc then mse g p else acc) acc ≤ acc ∧
      ∀ p ∈ l,
        l.foldl (fun acc p => if mse g p < acc then mse g p else acc) acc
          ≤ mse g p := by
  induction l with
  | nil => intro acc; simp
  | cons q t ih =>
    intro acc
    rw [List.foldl_cons]
    by_cases hq : mse g q < acc
    · rw [if_pos hq]
      refine ⟨le_trans (ih (mse g q)).1 (le_of_lt hq), ?_⟩
      intro p hp
      rcases List.mem_cons.mp hp with rfl | hp
      · exact (ih (mse g p)).1
      · exact (ih (mse g q)).2 p hp
    · rw [if_neg hq]
      refine ⟨(ih acc).1, ?_⟩
      intro p hp
      rcases List.mem_cons.mp hp with rfl | hp
      · exact le_trans (ih acc).1 (not_lt.mp hq)
      · exact (ih acc).2 p hp

theorem distFold_cases (g : Grid ℝ) (l : List (Grid ℝ)) :
    ∀ acc : ℝ,
      l.foldl (fun acc p => if mse g p < acc then mse g p else acc) acc = acc ∨
      ∃ p ∈ l,
        l.foldl (fun acc p => if mse g p < acc then mse g p else acc) acc
          = mse g p := by
  induction l with
  | nil => intro acc; left; rfl
  | cons q t ih =>
    intro acc
    rw [List.foldl_cons]
    by_cases hq : mse g q < acc
    · rw [if_pos hq]
      rcases ih (mse g q) with h | ⟨p, hp, h⟩
      · exact Or.inr ⟨q, List.mem_cons_self q t, h⟩
      · exact Or.inr ⟨p, List.mem_cons_of_mem q hp, h⟩
    · rw [if_neg hq]
      rcases ih acc with h | ⟨p, hp, h⟩
      · exact Or.inl h
      · exact Or.inr ⟨p, List.mem_cons_of_mem q hp, h⟩

theorem distOf_le_of_mem (g : Grid ℝ) (bank : Bank) (d : ℕ)
    {p : Grid ℝ} (hp : p ∈ bank d) : distOf g bank d ≤ mse g p :=
  (distFold_le g (bank d) 1000000000).2 p hp

theorem distOf_nonneg (g : Grid ℝ) (bank : Bank) (d : ℕ) :
    0 ≤ distOf g bank d := by
  rcases distFold_cases g (bank d) 1000000000 with h | ⟨p, _, h⟩
  · rw [distOf, h]; norm_num
  · rw [distOf, h]; exact mse_nonneg g p

theorem distOf_pos (g : Grid ℝ) (bank : Bank) (d : ℕ)
    (hpos : ∀ p ∈ bank d, 0 < mse g p) : 0 < distOf g bank d := by
  rcases distFold_cases g (bank d) 1000000000 with h | ⟨p, hp, h⟩
  · rw [distOf, h]; norm_num
  · rw [distOf, h]; exact hpos p hp

theorem distOf_attained (g : Grid ℝ) (bank : Bank) (d : ℕ)
    (hne : bank d ≠ [])
    (hlt : ∀ p ∈ bank d, mse g p < 1000000000) :
    ∃ p ∈ bank d, distOf g bank d = mse g p := by
  rcases distFold_cases g (bank d) 1000000000 with h | ⟨p, hp, h⟩
  · exfalso
    rcases List.exists_cons_of_ne_nil hne with ⟨q, t, hq⟩
    have h1 : distOf g bank d ≤ mse g q :=
      distOf_le_of_mem g bank d (hq ▸ List.mem_cons_self q t)
    have h2 : mse g q < 1000000000 := hlt q (hq ▸ List.mem_cons_self q t)
    rw [distOf, h] at h1
    linarith
  · exact ⟨p, hp, h⟩

theorem distOf_eq_zero (g : Grid ℝ) (bank : Bank) (d : ℕ)
    {p : Grid ℝ} (hp : p ∈ bank d) (hz : mse g p = 0) :
    distOf g bank d = 0 :=
  le_antisymm (hz ▸ distOf_le_of_mem g bank d hp) (distOf_nonneg g bank d)

theorem bestFold_some (g : Grid ℝ) (l : List (Grid ℝ)) :
    ∀ bd : ℝ, ∀ bg : Grid ℝ,
      ∃ bd2 bg2,
        l.foldl
          (fun acc p =>
            match acc with
            | none => some (mse g p, p)
            | some bdp => if mse g p < bdp.1 then some (mse g p, p) else acc)
          (some (bd, bg)) = some (bd2, bg2) ∧
        ((bd2 = bd ∧ bg2 = bg) ∨ (bg2 ∈ l ∧ mse g bg2 = bd2)) ∧
        bd2 ≤ bd ∧ ∀ q ∈ l, bd2 ≤ mse g q := by
  induction l with
  | nil => intro bd bg; exact ⟨bd, bg, rfl, Or.inl ⟨rfl, rfl⟩, le_refl bd, by simp⟩
  | cons q t ih =>
    intro bd bg
    rw [List.foldl_cons]
    by_cases hq : mse g q < bd
    · simp only [if_pos hq]
      rcases ih (mse g q) q with ⟨bd2, bg2, heq, hor, hle, hall⟩
      refine ⟨bd2, bg2, heq, ?_, le_trans hle (le_of_lt hq), ?_⟩
      · rcases hor with ⟨rfl, rfl⟩ | ⟨hmem, hmse⟩
        · exact Or.inr ⟨List.mem_cons_self bg2 t, rfl⟩
        · exact Or.inr ⟨List.mem_cons_of_mem q hmem, hmse⟩
      · intro r hr
        rcases List.mem_cons.mp hr with rfl | hr
        · exact hle
        · exact hall r hr
    · simp only [if_neg hq]
      rcases ih bd bg with ⟨bd2, bg2, heq, hor, hle, hall⟩
      refine ⟨bd2, bg2, heq, ?_, hle, ?_⟩
      · rcases hor with ⟨rfl, rfl⟩ | ⟨hmem, hmse⟩
        · exact Or.inl ⟨rfl, rfl⟩
        · exact Or.inr ⟨List.mem_cons_of_mem q hmem, hmse⟩
      · intro r hr
        rcases List.mem_cons.mp hr with rfl | hr
        · exact le_trans hle (not_lt.mp hq)
        · exact hall r hr

theorem bestOf_spec (g : Grid ℝ) (bank : Bank)
    (hne : (List.range 10).flatMap bank ≠ []) :
    ∃ bd bg, bestOf g bank = some (bd, bg) ∧
      bg ∈ (List.range 10).flatMap bank ∧ mse g bg = bd ∧
      ∀ q ∈ (List.range 10).flatMap bank, bd ≤ mse g q := by
  unfold bestOf
  rcases List.exists_cons_of_ne_nil hne with ⟨q, t, hq⟩
  rw [hq, List.foldl_cons]
  rcases bestFold_some g t (mse g q) q with ⟨bd2, bg2, heq, hor, hle, hall⟩
  refine ⟨bd2, bg2, heq, ?_, ?_, ?_⟩
  · rcases hor with ⟨_, rfl⟩ | ⟨hmem, _⟩
    · exact List.mem_cons_self _ t
    · exact List.mem_cons_of_mem q hmem
  · rcases hor with ⟨hbd, rfl⟩ | ⟨_, hmse⟩
    · rw [hbd]
    · exact hmse
  · intro r hr
    rcases List.mem_cons.mp hr with rfl | hr
    · exact hle
    · exact hall r hr

/-! ### Structure of the prediction list -/

theorem mem_predArrOf_iff (g : Grid ℝ) (bank : Bank) (q : Pred) :
    q ∈ predArrOf g bank ↔ ∃ i, i < 10 ∧
      q = ⟨i, (probsOf (distsOf g bank)).getD i 0, (distsOf g bank).getD i 0⟩ := by
  unfold predArrOf
  constructor
  · intro hq
    rcases List.mem_map.mp hq with ⟨i, hi, rfl⟩
    exact ⟨i, List.mem_range.mp hi, rfl⟩
  · rintro ⟨i, hi, rfl⟩
    exact List.mem_map.mpr ⟨i, List.mem_range.mpr hi, rfl⟩

theorem mem_predsOf_iff (g : Grid ℝ) (bank : Bank) (q : Pred) :
    q ∈ predsOf g bank ↔ ∃ i, i < 10 ∧
      q = ⟨i, (probsOf (distsOf g bank)).getD i 0, (distsOf g bank).getD i 0⟩ := by
  rw [← mem_predArrOf_iff]
  exact (List.perm_insertionSort rge (predArrOf g bank)).mem_iff

theorem distsOf_ne_nil (g : Grid ℝ) (bank : Bank) : distsOf g bank ≠ [] :=
  List.ne_nil_of_length_pos (by rw [length_distsOf]; omega)

theorem predsOf_wellformed (g : Grid ℝ) (bank : Bank) :
    (predsOf g bank).length = 10 ∧
    (∀ p ∈ predsOf g bank, 0 ≤ p.prob) ∧
    |((predsOf g bank).map Pred.prob).sum - 1| ≤ 1 / 1000000 ∧
    ((predsOf g bank).map Pred.digit).Perm (List.range 10) ∧
    List.Pairwise (fun a b : Pred => b.prob ≤ a.prob) (predsOf g bank) := by
  have hplen : (probsOf (distsOf g bank)).length = 10 := by
    rw [length_probsOf, length_distsOf]
  have hperm := List.perm_insertionSort rge (predArrOf g bank)
  refine ⟨?_, ?_, ?_, ?_, ?_⟩
  · rw [predsOf, List.length_insertionSort]
    simp [predArrOf]
  · intro p hp
    rcases (mem_predsOf_iff g bank p).mp hp with ⟨i, hi, rfl⟩
    have hmem : (probsOf (distsOf g bank)).getD i 0 ∈ probsOf (distsOf g bank) := by
      rw [List.getD_eq_getElem _ 0 (by omega)]
      exact List.getElem_mem _
    exact le_of_lt (mem_probsOf_pos _ (distsOf_ne_nil g bank) _ hmem)
  · have hmapperm : ((predsOf g bank).map Pred.prob).Perm
        ((predArrOf g bank).map Pred.prob) := hperm.map _
    rw [hmapperm.sum_eq]
    have harr : (predArrOf g bank).map Pred.prob = probsOf (distsOf g bank) := by
      unfold predArrOf
      rw [List.map_map]
      have : ((fun p : Pred => p.prob) ∘ fun i : ℕ =>
          (⟨i, (probsOf (distsOf g bank)).getD i 0, (distsOf g bank).getD i 0⟩ : Pred))
          = fun i : ℕ => (probsOf (distsOf g bank)).getD i 0 := rfl
      rw [this, ← hplen]
      exact map_getD_range (probsOf (distsOf g bank)) 0
    rw [harr, probsOf_sum _ (distsOf_ne_nil g bank)]
    norm_num
  · have hd : (predArrOf g bank).map Pred.digit = List.range 10 := by
      unfold predArrOf
      rw [List.map_map]
      have : (Pred.digit ∘ fun i : ℕ =>
          (⟨i, (probsOf (distsOf g bank)).getD i 0, (distsOf g bank).getD i 0⟩ : Pred))
          = fun i : ℕ => i := rfl
      rw [this, List.map_id']
    exact hd ▸ hperm.map Pred.digit
  · exact List.sorted_insertionSort rge (predArrOf g bank)

/-! ### Constant distance vectors -/

theorem foldl_min_replicate {α : Type} [LinearOrder α] (n : ℕ) (a : α) :
    (List.replicate n a).foldl min a = a := by
  induction n with
  | zero => simp
  | succ m ih => simp [List.replicate_succ, ih]

theorem maxList_replicate (n : ℕ) (a : ℝ) (hn : n ≠ 0) :
    maxList (List.replicate n a) = a := by
  cases n with
  | zero => omega
  | succ m =>
    rw [List.replicate_succ]
    unfold maxList
    exact foldl_max_replicate m a

theorem minList_replicate (n : ℕ) (a : ℝ) (hn : n ≠ 0) :
    minList (List.replicate n a) = a := by
  cases n with
  | zero => omega
  | succ m =>
    rw [List.replicate_succ]
    unfold minList
    exact foldl_min_replicate m a

theorem maxLOf_replicate (n : ℕ) (c : ℝ) (hn : n ≠ 0) :
    maxLOf (List.replicate n c) = -alphaOf (List.replicate n c) * c := by
  unfold maxLOf logitsOf
  rw [List.map_replicate]
  exact maxList_replicate n _ hn

theorem expsOf_replicate (n : ℕ) (c : ℝ) (hn : n ≠ 0) :
    expsOf (List.replicate n c) = List.replicate n 1 := by
  unfold expsOf logitsOf
  rw [List.map_replicate, List.map_replicate, maxLOf_replicate n c hn]
  rw [sub_self, Real.exp_zero]

theorem zOf_replicate (n : ℕ) (c : ℝ) (hn : n ≠ 0) :
    zOf (List.replicate n c) = n := by
  rw [zOf_eq_sum, expsOf_replicate n c hn, List.sum_replicate]
  simp

theorem probsOf_replicate (n : ℕ) (c : ℝ) (hn : n ≠ 0) :
    probsOf (List.replicate n c) = List.replicate n (1 / (n : ℝ)) := by
  unfold probsOf
  rw [expsOf_replicate n c hn, zOf_replicate n c hn, List.map_replicate]

/-! ### Controller invariant -/

theorem cstep_scheduled_inv {I O : Type} (process : I → O) (s : CtrlState I O)
    (e : CtrlEvent I)
    (hs : s.scheduled = if s.rafId then 1 else 0) :
    (cstep process s e).scheduled = if (cstep process s e).rafId then 1 else 0 := by
  cases e with
  | trigger i =>
    by_cases h : s.rafId
    · simp [cstep, h, hs]
    · simp [cstep, h, hs]
  | frame =>
    by_cases h : s.rafId
    · simp [cstep, h, hs]
    · simp [cstep, h, hs]

theorem crun_scheduled_inv {I O : Type} (process : I → O)
    (es : List (CtrlEvent I)) :
    ∀ s : CtrlState I O, s.scheduled = (if s.rafId then 1 else 0) →
      (crun process s es).scheduled =
        if (crun process s es).rafId then 1 else 0 := by
  induction es with
  | nil => intro s hs; exact hs
  | cons e t ih =>
    intro s hs
    rw [crun, List.foldl_cons]
    exact ih (cstep process s e) (cstep_scheduled_inv process s e hs)

/-! ### Small concrete-evaluation helpers -/

theorem mse_one_by_one (a b : ℝ) : mse [[a]] [[b]] = (a - b) ^ 2 := by
  simp [mse, cell, gH, gW, List.range_succ]

theorem cell_single_zero (y x : ℕ) : cell ([[0]] : Grid ℝ) y x = 0 := by
  unfold cell
  cases y with
  | zero =>
    cases x with
    | zero => rfl
    | succ m => simp [List.getD]
  | succ m => simp [List.getD]

theorem probsOf_getD_lt (dists : List ℝ) {i j : ℕ} (hi : i < dists.length)
    (hj : j < dists.length) (hij : dists.getD j 0 < dists.getD i 0) :
    (probsOf dists).getD i 0 < (probsOf dists).getD j 0 := by
  rw [probsOf_getD dists hi, probsOf_getD dists hj]
  have hz : 0 < zOf dists := by
    apply zOf_pos
    intro h
    rw [h] at hi
    simp at hi
  apply div_lt_div_of_pos_right ?_ hz
  apply Real.exp_lt_exp.mpr
  have halpha := alphaOf_pos dists
  have := mul_lt_mul_of_pos_left hij halpha
  linarith

/-! ## The claims -/

/-- Claim C1: for every input grid and prototype bank, the classifier
produces exactly 10 predictions, one per digit class `0..9` (the digits are
a permutation of `range 10`), every probability is non-negative, the
probabilities sum to 1 within `1e-6`, and the output is sorted by
descending probability. -/
theorem C1_classifier_output_wellformed (g : Grid ℝ) (bank : Bank) :
    (predsOf g bank).length = 10 ∧
    (∀ p ∈ predsOf g bank, 0 ≤ p.prob) ∧
    |((predsOf g bank).map Pred.prob).sum - 1| ≤ 1 / 1000000 ∧
    ((predsOf g bank).map Pred.digit).Perm (List.range 10) ∧
    List.Pairwise (fun a b : Pred => b.prob ≤ a.prob) (predsOf g bank) :=
  predsOf_wellformed g bank

/-- Claim C2, counterexample to the claim as stated: on the grid `[[-1]]`
the maximum absolute value is `1` (not below `1e-8`), yet `normalizeAbs`
returns cell `1`, not the cell divided by the maximum, which would be
`-1`: the code divides the ABSOLUTE value of each cell, not the cell
itself. -/
theorem C2_normalizeAbs_counterexample :
    ¬ maxAbs ([[-1]] : Grid ℚ) < 1 / 100000000 ∧
    maxAbs ([[-1]] : Grid ℚ) = 1 ∧
    cell (normalizeAbs ([[-1]] : Grid ℚ)) 0 0 = 1 ∧
    cell ([[-1]] : Grid ℚ) 0 0 / maxAbs ([[-1]] : Grid ℚ) = -1 ∧
    cell (normalizeAbs ([[-1]] : Grid ℚ)) 0 0 ≠
      cell ([[-1]] : Grid ℚ) 0 0 / maxAbs ([[-1]] : Grid ℚ) := by
  have hmax : maxAbs ([[-1]] : Grid ℚ) = 1 := by
    simp [maxAbs, cell, gH, gW, List.range_succ]
  have hcell : cell (normalizeAbs ([[-1]] : Grid ℚ)) 0 0 = 1 := by
    rw [show (normalizeAbs ([[-1]] : Grid ℚ)) = [[1]] by
      simp [normalizeAbs, maxAbs, mkGrid, cell, gH, gW, List.range_succ]
      norm_num]
    rfl
  refine ⟨by rw [hmax]; norm_num, hmax, hcell, ?_, ?_⟩
  · rw [hmax]
    norm_num [cell]
  · rw [hmax, hcell]
    norm_num [cell]

/-- Claim C2 (amended): when the maximum absolute value is below `1e-8`,
`normalizeAbs` returns the all-zero grid of the same dimensions; otherwise
every cell of the result is the ABSOLUTE VALUE of the corresponding input
cell divided by that maximum (the spec's plain quotient omits the absolute
value taken by the code). -/
theorem C2_normalizeAbs_amended {α : Type} [LinearOrderedField α] (g : Grid α) :
    (maxAbs g < 1 / 100000000 → normalizeAbs g = zeros α (gH g) (gW g)) ∧
    (¬ maxAbs g < 1 / 100000000 →
      ∀ y x, y < gH g → x < gW g →
        cell (normalizeAbs g) y x = |cell g y x| / maxAbs g) := by
  constructor
  · intro hm
    unfold normalizeAbs
    rw [if_pos hm]
  · intro hm y x hy hx
    unfold normalizeAbs
    rw [if_neg hm, cell_mkGrid _ _ _ hy hx]

theorem C2_normalizeAbs_amended_witness :
    ¬ maxAbs ([[-2]] : Grid ℚ) < 1 / 100000000 ∧
    cell (normalizeAbs ([[-2]] : Grid ℚ)) 0 0 =
      |cell ([[-2]] : Grid ℚ) 0 0| / maxAbs ([[-2]] : Grid ℚ) := by
  have hmax2 : maxAbs ([[-2]] : Grid ℚ) = 2 := by
    simp [maxAbs, cell, gH, gW, List.range_succ]
  have hm : ¬ maxAbs ([[-2]] : Grid ℚ) < 1 / 100000000 := by
    rw [hmax2]
    norm_num
  exact ⟨hm, (C2_normalizeAbs_amended ([[-2]] : Grid ℚ)).2 hm 0 0
    (by norm_num [gH]) (by norm_num [gW])⟩

/-- Claim C3, counterexample to the claim as stated: the raw `convolve3`
output is a pipeline grid whose cells can leave `[0,1]`: convolving the
grid `[[0, 1]]` (all cells in `[0,1]`) with the Sobel-X kernel yields
`[[4, 4]]`, whose cells exceed `1`. -/
theorem C3_bounds_counterexample :
    convolve3 ([[0, 1]] : Grid ℚ) KERNELS.SobelX = [[4, 4]] ∧
    ¬ cell (convolve3 ([[0, 1]] : Grid ℚ) KERNELS.SobelX) 0 0 ≤ 1 := by
  have hconv : convolve3 ([[0, 1]] : Grid ℚ) KERNELS.SobelX = [[4, 4]] := by
    simp [convolve3, mkGrid, cell, gH, gW, offs, reflect, reflectAux,
      KERNELS.SobelX, List.range_succ]
    norm_num
  refine ⟨hconv, ?_⟩
  rw [hconv]
  norm_num [cell]

/-- Claim C3 (amended): the displayed pipeline-stage grids stay in
`[0,1]`: grayscale outputs (for byte-valued bitmaps), abs-normalised
convolution outputs, and max-pooled maps of `[0,1]` grids all have every
cell in `[0,1]`.  The raw `convolve3` outputs, by contrast, may leave
`[0,1]` and are passed through `normalizeAbs` before display. -/
theorem C3_stage_bounds_amended {α : Type} [LinearOrderedField α]
    (img : Bitmap) (g k : Grid α)
    (hb : ∀ row ∈ img, ∀ p ∈ row, p.1 ≤ 255 ∧ p.2.1 ≤ 255 ∧ p.2.2 ≤ 255)
    (hg : ∀ y x, 0 ≤ cell g y x ∧ cell g y x ≤ 1) :
    (∀ y x, 0 ≤ cell (fromImageDataToGray img true : Grid α) y x ∧
      cell (fromImageDataToGray img true : Grid α) y x ≤ 1) ∧
    (∀ y x, 0 ≤ cell (normalizeAbs (convolve3 g k)) y x ∧
      cell (normalizeAbs (convolve3 g k)) y x ≤ 1) ∧
    (∀ y x, 0 ≤ cell (maxPool2 (normalizeAbs (convolve3 g k))) y x ∧
      cell (maxPool2 (normalizeAbs (convolve3 g k))) y x ≤ 1) ∧
    (∀ y x, 0 ≤ cell (maxPool2 g) y x ∧ cell (maxPool2 g) y x ≤ 1) :=
  ⟨cell_gray_bounds img hb,
   cell_normalizeAbs_bounds (convolve3 g k),
   cell_maxPool2_bounds _ (cell_normalizeAbs_bounds (convolve3 g k)),
   cell_maxPool2_bounds g hg⟩

theorem C3_stage_bounds_amended_witness :
    0 ≤ cell (fromImageDataToGray ([[(255, 255, 255)]] : Bitmap) true : Grid ℚ) 0 0 ∧
    cell (fromImageDataToGray ([[(255, 255, 255)]] : Bitmap) true : Grid ℚ) 0 0 ≤ 1 ∧
    0 ≤ cell (normalizeAbs (convolve3 ([[0, 1]] : Grid ℚ) KERNELS.SobelX)) 0 0 ∧
    cell (normalizeAbs (convolve3 ([[0, 1]] : Grid ℚ) KERNELS.SobelX)) 0 0 ≤ 1 := by
  have hb : ∀ row ∈ ([[(255, 255, 255)]] : Bitmap), ∀ p ∈ row,
      p.1 ≤ 255 ∧ p.2.1 ≤ 255 ∧ p.2.2 ≤ 255 := by
    intro row hrow p hp
    simp only [List.mem_singleton] at hrow
    subst hrow
    simp only [List.mem_singleton] at hp
    subst hp
    exact ⟨le_refl _, le_refl _, le_refl _⟩
  have hg : ∀ y x, 0 ≤ cell ([[0, 1]] : Grid ℚ) y x ∧
      cell ([[0, 1]] : Grid ℚ) y x ≤ 1 := by
    intro y x
    unfold cell
    cases y with
    | zero =>
      cases x with
      | zero => norm_num
      | succ m =>
        cases m with
        | zero => norm_num
        | succ m2 => simp [List.getD]
    | succ m => simp [List.getD]
  have h := C3_stage_bounds_amended ([[(255, 255, 255)]] : Bitmap)
    ([[0, 1]] : Grid ℚ) KERNELS.SobelX hb hg
  exact ⟨(h.1 0 0).1, (h.1 0 0).2, (h.2.1 0 0).1, (h.2.1 0 0).2⟩

/-- Claim C4: when class `d` has at least one prototype and every mse to it
is below the `1e9` sentinel, the recorded distance `dists[d]` equals the
minimum mse over the prototypes of class `d` (it is attained and is a lower
bound), and the nearest-prototype output is the arg-min of mse over all
prototypes of all classes. -/
theorem C4_dist_min_best_argmin (g : Grid ℝ) (bank : Bank) (d : ℕ)
    (hne : bank d ≠ [])
    (hlt : ∀ p ∈ bank d, mse g p < 1000000000)
    (hall : (List.range 10).flatMap bank ≠ []) :
    ((∃ p ∈ bank d, distOf g bank d = mse g p) ∧
      ∀ p ∈ bank d, distOf g bank d ≤ mse g p) ∧
    ∃ bd bg, bestOf g bank = some (bd, bg) ∧
      bg ∈ (List.range 10).flatMap bank ∧ mse g bg = bd ∧
      ∀ q ∈ (List.range 10).flatMap bank, bd ≤ mse g q :=
  ⟨⟨distOf_attained g bank d hne hlt,
    fun _ hp => distOf_le_of_mem g bank d hp⟩,
   bestOf_spec g bank hall⟩

theorem C4_dist_min_best_argmin_witness :
    distOf [[(1 : ℝ)]] (fun _ => [[[0]]]) 0 ≤ mse [[(1 : ℝ)]] [[(0 : ℝ)]] ∧
    mse [[(1 : ℝ)]] [[(0 : ℝ)]] = 1 := by
  have hlt : ∀ p ∈ (fun _ => [[[(0 : ℝ)]]] : Bank) 0, mse [[(1 : ℝ)]] p < 1000000000 := by
    intro p hp
    simp only [List.mem_singleton] at hp
    subst hp
    rw [mse_one_by_one]
    norm_num
  have hall : (List.range 10).flatMap (fun _ => [[[(0 : ℝ)]]] : Bank) ≠ [] := by
    simp [List.range_succ]
  have h := C4_dist_min_best_argmin [[(1 : ℝ)]] (fun _ => [[[0]]]) 0
    (by simp) hlt hall
  refine ⟨h.1.2 [[(0 : ℝ)]] (by simp), ?_⟩
  rw [mse_one_by_one]
  norm_num

/-- Claim C5: convolving a uniform constant grid (any height and width at
least 1, any constant) with any 3x3 kernel whose nine entries sum to 1
returns the same constant grid, with no boundary artifacts; the Blur
kernel is such a kernel (its entry sum is checked in the witness). -/
theorem C5_convolve_const_identity {α : Type} [LinearOrderedField α]
    (h w : ℕ) (c : α) (k : Grid α) (hh : 1 ≤ h) (hw : 1 ≤ w)
    (hk : kernelSum k = 1) :
    convolve3 (constGrid h w c) k = constGrid h w c :=
  convolve3_constGrid h w c k hh hw hk

theorem C5_convolve_const_identity_witness :
    kernelSum (KERNELS.Blur3 : Grid ℚ) = 1 ∧
    convolve3 (constGrid 2 3 ((1 : ℚ) / 2)) KERNELS.Blur3 =
      constGrid 2 3 ((1 : ℚ) / 2) := by
  have hk : kernelSum (KERNELS.Blur3 : Grid ℚ) = 1 := by
    simp [kernelSum, cell, KERNELS.Blur3, List.range_succ]
    norm_num
  exact ⟨hk, C5_convolve_const_identity 2 3 ((1 : ℚ) / 2) KERNELS.Blur3
    (by norm_num) (by norm_num) hk⟩

/-- Claim C6: if the canonical grid equals a stored prototype of class 3
and every prototype of every other class has strictly positive mse to it,
then the recorded distance of class 3 is 0, and the top-ranked prediction
has digit 3 with probability strictly greater than that of every
prediction for another digit. -/
theorem C6_exact_prototype_match (g : Grid ℝ) (bank : Bank) (p3 : Grid ℝ)
    (hp3 : p3 ∈ bank 3) (hgp : g = p3)
    (hpos : ∀ d, d < 10 → d ≠ 3 → ∀ q ∈ bank d, 0 < mse g q) :
    distOf g bank 3 = 0 ∧
    ∃ hd, (predsOf g bank).head? = some hd ∧ hd.digit = 3 ∧
      ∀ q ∈ predsOf g bank, q.digit ≠ 3 → q.prob < hd.prob := by
  have hz : mse g p3 = 0 := by rw [hgp]; exact mse_self p3
  have hd3 : distOf g bank 3 = 0 := distOf_eq_zero g bank 3 hp3 hz
  refine ⟨hd3, ?_⟩
  have hlen : (distsOf g bank).length = 10 := length_distsOf g bank
  have hkey : ∀ i, i < 10 → i ≠ 3 →
      (probsOf (distsOf g bank)).getD i 0 < (probsOf (distsOf g bank)).getD 3 0 := by
    intro i hi hne3
    apply probsOf_getD_lt (distsOf g bank) (by omega) (by omega)
    rw [distsOf_getD g bank (by omega : (3 : ℕ) < 10), distsOf_getD g bank hi, hd3]
    exact distOf_pos g bank i (hpos i hi hne3)
  have hlenP : (predsOf g bank).length = 10 := (predsOf_wellformed g bank).1
  have hnempty : predsOf g bank ≠ [] := List.ne_nil_of_length_pos (by omega)
  rcases List.exists_cons_of_ne_nil hnempty with ⟨hd, tl, hcons⟩
  have hsorted : List.Sorted rge (predsOf g bank) :=
    List.sorted_insertionSort rge (predArrOf g bank)
  have hhd_mem : hd ∈ predsOf g bank := by
    rw [hcons]
    exact List.mem_cons_self hd tl
  rcases (mem_predsOf_iff g bank hd).mp hhd_mem with ⟨i, hi, hdeq⟩
  have ha3 : (⟨3, (probsOf (distsOf g bank)).getD 3 0,
      (distsOf g bank).getD 3 0⟩ : Pred) ∈ predsOf g bank :=
    (mem_predsOf_iff g bank _).mpr ⟨3, by omega, rfl⟩
  have hi3 : i = 3 := by
    by_contra hne3
    have h2 : hd.prob < (probsOf (distsOf g bank)).getD 3 0 := by
      rw [hdeq]
      exact hkey i hi hne3
    rw [hcons] at ha3
    rcases List.mem_cons.mp ha3 with heq | hmem
    · rw [← heq] at h2
      simp at h2
    · have hrel := List.rel_of_sorted_cons (hcons ▸ hsorted) _ hmem
      unfold rge at hrel
      simp only at hrel
      linarith
  refine ⟨hd, by rw [hcons]; rfl, by rw [hdeq, hi3], ?_⟩
  intro q hq hqd
  rcases (mem_predsOf_iff g bank q).mp hq with ⟨j, hj, hqeq⟩
  have hj3 : j ≠ 3 := by
    intro hcontra
    apply hqd
    rw [hqeq, hcontra]
  have hqprob : q.prob = (probsOf (distsOf g bank)).getD j 0 := by rw [hqeq]
  have hdprob : hd.prob = (probsOf (distsOf g bank)).getD 3 0 := by
    rw [hdeq, hi3]
  rw [hqprob, hdprob]
  exact hkey j hj hj3

theorem C6_exact_prototype_match_witness :
    distOf [[(1 : ℝ)]] (fun d => if d = 3 then [[[1]]] else [[[0]]]) 3 = 0 ∧
    0 < mse [[(1 : ℝ)]] [[(0 : ℝ)]] := by
  have hpos : ∀ d, d < 10 → d ≠ 3 →
      ∀ q ∈ (fun d => if d = 3 then [[[(1 : ℝ)]]] else [[[0]]] : Bank) d,
        0 < mse [[(1 : ℝ)]] q := by
    intro d _ hd3 q hq
    simp only [if_neg hd3, List.mem_singleton] at hq
    subst hq
    rw [mse_one_by_one]
    norm_num
  have h := C6_exact_prototype_match [[(1 : ℝ)]]
    (fun d => if d = 3 then [[[1]]] else [[[0]]]) [[(1 : ℝ)]]
    (by simp) rfl hpos
  refine ⟨h.1, ?_⟩
  rw [mse_one_by_one]
  norm_num

/-- Claim C7: when no cell of the grayscale grid exceeds the ink threshold
`0.08`, preprocessing returns the all-zero 28x28 canonical grid together
with bounding box `none` as an ordinary result (for any host resampler),
and the classifier still produces 10 well-formed predictions on that
all-zero grid. -/
theorem C7_empty_canvas (img : Bitmap)
    (resample : Grid ℝ → ℤ × ℤ × ℤ × ℤ → Grid ℝ) (bank : Bank)
    (hno : ∀ y x, cell (fromImageDataToGray img true : Grid ℝ) y x ≤ 8 / 100) :
    preprocessTo28x28 resample img = (zeros ℝ 28 28, none) ∧
    (predsOf (zeros ℝ 28 28) bank).length = 10 ∧
    (∀ p ∈ predsOf (zeros ℝ 28 28) bank, 0 ≤ p.prob) ∧
    |((predsOf (zeros ℝ 28 28) bank).map Pred.prob).sum - 1| ≤ 1 / 1000000 ∧
    List.Pairwise (fun a b : Pred => b.prob ≤ a.prob)
      (predsOf (zeros ℝ 28 28) bank) := by
  constructor
  · simp only [preprocessTo28x28]
    rw [bboxFold_of_no_ink _ _ _ hno]
    norm_num
  · have h := predsOf_wellformed (zeros ℝ 28 28) bank
    exact ⟨h.1, h.2.1, h.2.2.1, h.2.2.2.2⟩

theorem C7_empty_canvas_witness :
    preprocessTo28x28 (fun g _ => g) ([[(255, 255, 255)]] : Bitmap)
      = (zeros ℝ 28 28, none) ∧
    (predsOf (zeros ℝ 28 28) (fun _ => [])).length = 10 := by
  have hgray : (fromImageDataToGray ([[(255, 255, 255)]] : Bitmap) true : Grid ℝ)
      = [[0]] := by
    simp [fromImageDataToGray]
    norm_num
  have hno : ∀ y x,
      cell (fromImageDataToGray ([[(255, 255, 255)]] : Bitmap) true : Grid ℝ) y x
        ≤ 8 / 100 := by
    intro y x
    rw [hgray, cell_single_zero]
    norm_num
  have h := C7_empty_canvas ([[(255, 255, 255)]] : Bitmap) (fun g _ => g)
    (fun _ => []) hno
  exact ⟨h.1, h.2.1⟩

/-- Claim C8: for every 10-entry distance vector, the spread is guarded to
the positive floor `1e-9`, the inverse temperature is the clamp
`min 120 (max 30 (60 / sqrt (spread + 1e-9)))` and lies in `[30, 120]`,
every probability is a well-defined real in `(0, 1]` (no NaN or infinity),
and when all distances are identical every probability is exactly
`1/10`. -/
theorem C8_spread_alpha_guard (dists : List ℝ) (hlen : dists.length = 10) :
    1 / 1000000000 ≤ spreadOf dists ∧ 0 < spreadOf dists ∧
    alphaOf dists =
      min 120 (max 30 (60 / Real.sqrt (spreadOf dists + 1 / 1000000000))) ∧
    30 ≤ alphaOf dists ∧ alphaOf dists ≤ 120 ∧
    (∀ p ∈ probsOf dists, 0 < p ∧ p ≤ 1) ∧
    ∀ c : ℝ, (∀ x ∈ dists, x = c) →
      probsOf dists = List.replicate 10 (1 / 10) := by
  have hne : dists ≠ [] := List.ne_nil_of_length_pos (by omega)
  refine ⟨le_max_left _ _, lt_of_lt_of_le (by norm_num) (le_max_left _ _), rfl,
    alphaOf_ge_30 dists, alphaOf_le_120 dists, ?_, ?_⟩
  · intro p hp
    exact ⟨mem_probsOf_pos dists hne p hp, mem_probsOf_le_one dists hne p hp⟩
  · intro c hc
    have hrep : dists = List.replicate 10 c := List.eq_replicate_iff.mpr ⟨hlen, hc⟩
    rw [hrep, probsOf_replicate 10 c (by norm_num)]
    norm_num

theorem C8_spread_alpha_guard_witness :
    (List.replicate 10 (0 : ℝ)).length = 10 ∧
    probsOf (List.replicate 10 (0 : ℝ)) = List.replicate 10 (1 / 10) := by
  have h := C8_spread_alpha_guard (List.replicate 10 (0 : ℝ)) (by simp)
  exact ⟨by simp, h.2.2.2.2.2.2 0 (fun x hx => List.eq_of_mem_replicate hx)⟩

/-- Claim C9: at most one pipeline computation is ever scheduled: along
every event sequence from the initial state at most one callback is
registered; a trigger arriving while one is pending schedules nothing new
(the state changes only by recording the newer input — dropped, not
queued); every trigger records the latest input; and when the pending
callback fires it processes the input current at that moment. -/
theorem C9_at_most_one_in_flight {I O : Type} (process : I → O) (i0 : I) :
    (∀ es : List (CtrlEvent I),
      (crun process (cinit i0 : CtrlState I O) es).scheduled ≤ 1) ∧
    (∀ (s : CtrlState I O) (i : I), s.rafId = true →
      cstep process s (CtrlEvent.trigger i) = { s with inp := i }) ∧
    (∀ (s : CtrlState I O) (i : I),
      (cstep process s (CtrlEvent.trigger i)).inp = i) ∧
    (∀ s : CtrlState I O, s.rafId = true →
      (cstep process s CtrlEvent.frame).out = some (process s.inp)) := by
  refine ⟨?_, ?_, ?_, ?_⟩
  · intro es
    have h := crun_scheduled_inv process es (cinit i0) (by rfl)
    rw [h]
    split <;> omega
  · intro s i hs
    simp [cstep, hs]
  · intro s i
    by_cases hs : s.rafId <;> simp [cstep, hs]
  · intro s hs
    simp [cstep, hs]

theorem C9_at_most_one_in_flight_witness :
    (crun (fun n : ℕ => n + 1) (cinit 0 : CtrlState ℕ ℕ)
      [CtrlEvent.trigger 4, CtrlEvent.trigger 7, CtrlEvent.frame]).scheduled ≤ 1 ∧
    cstep (fun n : ℕ => n + 1) (⟨5, true, 1, none⟩ : CtrlState ℕ ℕ)
      (CtrlEvent.trigger 7) = ⟨7, true, 1, none⟩ ∧
    (cstep (fun n : ℕ => n + 1) (⟨5, true, 1, none⟩ : CtrlState ℕ ℕ)
      CtrlEvent.frame).out = some 6 := by
  have h := C9_at_most_one_in_flight (fun n : ℕ => n + 1) (0 : ℕ)
  refine ⟨h.1 _, ?_, ?_⟩
  · rw [h.2.1 _ 7 rfl]
  · rw [h.2.2.2 _ rfl]

/-- Claim C10: for every grid dimension `n ≥ 1` and every integer index
`i`, the reflect-padding index function terminates — the embedded loop is
stable under any extra fuel beyond the `|i| + 1` steps it provably needs —
and returns an index in `[0, n)`, including the degenerate `n = 1` case;
hence the neighborhood lookups of `convolve3`, taken at `(reflect _).toNat`,
are in bounds. -/
theorem C10_reflect_total_in_range (i : ℤ) (n : ℕ) (hn : 1 ≤ n) :
    0 ≤ reflect i n ∧ reflect i n < n ∧ (reflect i n).toNat < n ∧
    ∀ extra : ℕ,
      reflectAux (i.natAbs + 1 + extra) i n = reflectAux (i.natAbs + 1) i n :=
  ⟨(reflect_bounds i n hn).1, (reflect_bounds i n hn).2, reflect_toNat_lt i n hn,
   fun extra => reflectAux_fuel_stable (i.natAbs + 1) extra i n hn (by omega)⟩

theorem C10_reflect_total_in_range_witness :
    0 ≤ reflect (-5) 2 ∧ reflect (-5) 2 < 2 ∧ (reflect (-5) 2).toNat < 2 ∧
    reflectAux ((-5 : ℤ).natAbs + 1 + 3) (-5) 2
      = reflectAux ((-5 : ℤ).natAbs + 1) (-5) 2 := by
  have h := C10_reflect_total_in_range (-5) 2 (by norm_num)
  exact ⟨h.1, h.2.1, h.2.2.1, h.2.2.2 3⟩

end ActivityD
